import Mathlib

/-!
# Upsert loaders of the NFL data scripts

A shallow embedding of the three loader scripts

* `scripts/load_2025_data.go`        (one roster file, season 2025),
* `scripts/load_recent_players.go`   (roster files 2020-2024),
* `scripts/load_game_script_data.go` (games, seasonal statistics, weekly statistics),

Every script runs the same loop: for each decoded record, skip it when the
player identifier is empty, build an equality filter on the natural key, and call
`collection.UpdateOne(ctx, filter, bson.M{"$set": record}, SetUpsert(true))`;
an error is logged and the loop continues, a success increments `inserted`.

The document store is a collaborator of the scripts.  It is modelled as a list of
documents (finite maps from field names to values) together with the documented
behaviour of `UpdateOne` with `$set` and `upsert: true`: the first document that
satisfies the filter gets the fields of the update assigned (its other fields stay),
and when no document satisfies the filter a new one is appended, seeded with the
equality fields of the filter.  The store-assigned `_id` of a new document is not
generated by the model.
-/

namespace NFL

/-! ## Documents and the store -/

/-- A scalar BSON value. -/
inductive Value where
  | str (s : String)
  | int (n : Int)
  | bool (b : Bool)
  deriving DecidableEq, Repr

/-- A stored document: a map from field names to values (`none`: field absent). -/
abbrev Doc := String → Option Value

/-- The document without fields. -/
def Doc.empty : Doc := fun _ => none

/-- The document `d` with field `k` assigned `v`. -/
def Doc.set (d : Doc) (k : String) (v : Value) : Doc :=
  fun x => if x = k then some v else d x

/-- An equality filter `bson.M{k₁: v₁, ...}`. -/
abbrev Filter := List (String × Value)

/-- A document satisfies an equality filter when it carries every listed field with the
listed value. -/
def Filter.sat (f : Filter) (d : Doc) : Bool :=
  f.all (fun p => decide (d p.1 = some p.2))

/-- The equality fields of a filter as a document (the seed of an upserted document). -/
def Filter.seed (f : Filter) : Doc :=
  fun k => f.lookup k

/-- The update `{"$set": u}` applied to `d`: every field of `u` is assigned, every other
field of `d` keeps its value. -/
def setFields (d u : Doc) : Doc :=
  fun k => match u k with
    | some v => some v
    | none => d k

/-- The effect of `UpdateOne(filter, {"$set": u})` with `SetUpsert(true)` on the collection:
the first document satisfying the filter is updated; when there is none, a document made of
the filter's equality fields and the fields of `u` is added. -/
def UpdateOne : List Doc → Filter → Doc → List Doc
  | [], f, u => [setFields f.seed u]
  | d :: ds, f, u => if f.sat d then setFields d u :: ds else d :: UpdateOne ds f u

/-- What one `UpdateOne` round trip can do: succeed, return an error without having
written, or return an error although the write was applied (lost acknowledgement). -/
inductive StoreResult where
  | ok
  | errNotApplied
  | errApplied
  deriving DecidableEq, Repr

/-- The call returned no error. -/
def StoreResult.succeeded : StoreResult → Bool
  | .ok => true
  | _ => false

/-- The write reached the collection. -/
def StoreResult.written : StoreResult → Bool
  | .errNotApplied => false
  | _ => true

/-! ## Records

The record types live in the `models` package, which the scripts import.  The scripts use
the fields below; the remaining marshalled fields of a record are kept as a document
`rest`.  A struct has one field per BSON name, so the named fields take precedence over
`rest` in the marshalled document. -/

/-- A roster entry (`player` in the roster loops). -/
structure Player where
  NFLID : String
  Season : Int
  Name : String
  rest : Doc

/-- A scheduled game (`game` in the games loop). -/
structure Game where
  GameID : String
  rest : Doc

/-- A seasonal player statistic (`stat` in the seasonal loop). -/
structure PlayerStats where
  NFLID : String
  Season : Int
  SeasonType : String
  rest : Doc

/-- A weekly player statistic (`stat` in the weekly loop). -/
structure WeeklyStats where
  NFLID : String
  Season : Int
  Week : Int
  rest : Doc

/-- The marshalled roster entry, as passed to `$set`. -/
def Player.doc (p : Player) : Doc :=
  fun k =>
    if k = "nfl_id" then some (.str p.NFLID)
    else if k = "season" then some (.int p.Season)
    else if k = "name" then some (.str p.Name)
    else p.rest k

/-- The marshalled game. -/
def Game.doc (g : Game) : Doc :=
  fun k => if k = "game_id" then some (.str g.GameID) else g.rest k

/-- The marshalled seasonal statistic. -/
def PlayerStats.doc (s : PlayerStats) : Doc :=
  fun k =>
    if k = "nfl_id" then some (.str s.NFLID)
    else if k = "season" then some (.int s.Season)
    else if k = "season_type" then some (.str s.SeasonType)
    else s.rest k

/-- The marshalled weekly statistic. -/
def WeeklyStats.doc (s : WeeklyStats) : Doc :=
  fun k =>
    if k = "nfl_id" then some (.str s.NFLID)
    else if k = "season" then some (.int s.Season)
    else if k = "week" then some (.int s.Week)
    else s.rest k

/-! ## The upsert loop -/

/-- What distinguishes the upsert loops of the scripts from one another: the guard at the
head of the loop body (`true`: `continue`), the filter and the `$set` document. -/
structure Loop (α : Type) where
  guard : α → Bool
  filter : α → Filter
  doc : α → Doc

/-- Roster loop (`load_2025_data.go`, `load_recent_players.go`). -/
def rosterLoop : Loop Player where
  guard := fun player => decide (player.NFLID = "")
  filter := fun player => [("nfl_id", .str player.NFLID), ("season", .int player.Season)]
  doc := Player.doc

/-- Games loop (`load_game_script_data.go`); its body has no guard. -/
def gamesLoop : Loop Game where
  guard := fun _ => false
  filter := fun game => [("game_id", .str game.GameID)]
  doc := Game.doc

/-- Seasonal statistics loop (`load_game_script_data.go`). -/
def statsLoop : Loop PlayerStats where
  guard := fun stat => decide (stat.NFLID = "")
  filter := fun stat =>
    [("nfl_id", .str stat.NFLID), ("season", .int stat.Season),
     ("season_type", .str stat.SeasonType)]
  doc := PlayerStats.doc

/-- Weekly statistics loop (`load_game_script_data.go`). -/
def weeklyLoop : Loop WeeklyStats where
  guard := fun stat => decide (stat.NFLID = "")
  filter := fun stat =>
    [("nfl_id", .str stat.NFLID), ("season", .int stat.Season), ("week", .int stat.Week)]
  doc := WeeklyStats.doc

/-- The state of one run of an upsert loop.  `coll` is the collection and `inserted` the
counter of the script.  The scripts do not count the two `continue` branches; `skipped`
and `failed` count them here, and `issued` lists the positions of the records for which
`UpdateOne` was called. -/
structure SyncResult where
  coll : List Doc
  inserted : Nat
  skipped : Nat
  failed : Nat
  issued : List Nat

/-- The state before the first record. -/
def SyncResult.start (coll : List Doc) : SyncResult :=
  { coll := coll, inserted := 0, skipped := 0, failed := 0, issued := [] }

/-- One iteration of the loop body on the record `r` at position `i`, the store answering
`res` if it is called. -/
def step {α : Type} (L : Loop α) (res : StoreResult) (i : Nat) (r : α)
    (acc : SyncResult) : SyncResult :=
  if L.guard r then
    { acc with skipped := acc.skipped + 1 }
  else
    match res with
    | .ok =>
      { acc with
        coll := UpdateOne acc.coll (L.filter r) (L.doc r)
        inserted := acc.inserted + 1
        issued := acc.issued ++ [i] }
    | .errNotApplied =>
      { acc with failed := acc.failed + 1, issued := acc.issued ++ [i] }
    | .errApplied =>
      { acc with
        coll := UpdateOne acc.coll (L.filter r) (L.doc r)
        failed := acc.failed + 1
        issued := acc.issued ++ [i] }

/-- The loop over the records from position `i` on; `store j` is the answer of the store
to the call for the record at position `j`. -/
def upsertFrom {α : Type} (L : Loop α) (store : Nat → StoreResult) :
    Nat → List α → SyncResult → SyncResult
  | _, [], acc => acc
  | i, r :: rs, acc => upsertFrom L store (i + 1) rs (step L (store i) i r acc)

/-- The upsert loop of a script on the decoded records `rs`, started on `coll`. -/
def upsertLoop {α : Type} (L : Loop α) (store : Nat → StoreResult) (coll : List Doc)
    (rs : List α) : SyncResult :=
  upsertFrom L store 0 rs (SyncResult.start coll)

/-- A store on which every call succeeds. -/
def allOk : Nat → StoreResult := fun _ => .ok

/-- Synchronisation with every upsert succeeding: the final collection. -/
def sync {α : Type} (L : Loop α) (coll : List Doc) (rs : List α) : List Doc :=
  (upsertLoop L allOk coll rs).coll

/-! ## Files and the per-year loops -/

/-- Why the decoder rejected a file. -/
inductive DecodeError where
  | structural
  | schemaMismatch (column : String)
  deriving DecidableEq, Repr

/-- What a script finds for one cache path: `os.Stat` reports the file missing,
`os.ReadFile` fails, or the bytes are read and handed to the decoder, which returns the
records or an error. -/
inductive FileOutcome (α : Type) where
  | missing
  | readError
  | read (parsed : Except DecodeError (List α))

/-- The file was read and decoded. -/
def FileOutcome.usable {α : Type} : FileOutcome α → Bool
  | .read (.ok _) => true
  | _ => false

/-- The state of a multi-year loop: the collection, the running total (`totalInserted`,
`totalStats`, `totalWeekly`) and the `UpdateOne` calls made so far, as pairs of a year and
a record position. -/
structure LoadState where
  coll : List Doc
  total : Nat
  issued : List (Int × Nat)

/-- The body of the `for _, year := range years` loops: each of the three failures and the
empty record sequence end the iteration with `continue`. -/
def yearStep {α : Type} (L : Loop α) (files : Int → FileOutcome α)
    (store : Int → Nat → StoreResult) (year : Int) (st : LoadState) : LoadState :=
  match files year with
  | .missing => st
  | .readError => st
  | .read (.error _) => st
  | .read (.ok rs) =>
    if rs.length = 0 then st
    else
      { coll := (upsertLoop L (store year) st.coll rs).coll
        total := st.total + (upsertLoop L (store year) st.coll rs).inserted
        issued := st.issued ++ (upsertLoop L (store year) st.coll rs).issued.map
          (fun i => (year, i)) }

/-- The script `load_2025_data.go`: one roster file.  A missing file and an empty record
sequence end the script with `return`; a read error and a decode error abort it with
`log.Fatalf`, which is the result `none`. -/
def load2025 (file : FileOutcome Player) (store : Nat → StoreResult) (coll : List Doc) :
    Option SyncResult :=
  match file with
  | .missing => some (SyncResult.start coll)
  | .readError => none
  | .read (.error _) => none
  | .read (.ok players) =>
    if players.length = 0 then some (SyncResult.start coll)
    else some (upsertLoop rosterLoop store coll players)

/-- The loop over the years. -/
def loadYears {α : Type} (L : Loop α) (files : Int → FileOutcome α)
    (store : Int → Nat → StoreResult) : List Int → LoadState → LoadState
  | [], st => st
  | year :: ys, st => loadYears L files store ys (yearStep L files store year st)

/-- The years of `load_recent_players.go` and `load_game_script_data.go`. -/
def years : List Int := [2020, 2021, 2022, 2023, 2024]

/-- The games block of `load_game_script_data.go`: one file, no check for an empty
sequence. -/
def loadGames (file : FileOutcome Game) (store : Nat → StoreResult) (st : LoadState) :
    LoadState :=
  match file with
  | .missing => st
  | .readError => st
  | .read (.error _) => st
  | .read (.ok games) =>
    { coll := (upsertLoop gamesLoop store st.coll games).coll
      total := st.total + (upsertLoop gamesLoop store st.coll games).inserted
      issued := st.issued ++ (upsertLoop gamesLoop store st.coll games).issued.map
        (fun i => (0, i)) }

/-! ## The decoder

The package `internal/parquet` is imported by the scripts; its entry points are described
by the design document only. -/

/-- Modelled from the spec: the bytes of a columnar file as the decoder sees them after
validating header, footer and column directory (package `internal/parquet`): either the
structure is broken, or there is a column directory and a list of row groups, each holding
one chunk of values per column. -/
inductive ColumnFile where
  | corrupt
  | table (columns : List String) (rowGroups : List (List (String × List Value)))

/-- Modelled from the spec: the rows of one row group of `internal/parquet`, reassembled by
position over the required columns; value `j` of every column belongs to row `j`, and a
row group without rows contributes nothing. -/
def rowsOf (required : List String) (group : List (String × List Value)) : List Doc :=
  let height := match required with
    | [] => 0
    | c :: _ => ((group.lookup c).getD []).length
  (List.range height).map (fun j => fun c =>
    if required.contains c then (group.lookup c).bind (fun chunk => chunk[j]?) else none)

/-- Modelled from the spec: whole-file decoding of `internal/parquet`: a broken structure is
a structural error, a required column absent from the directory is a schema mismatch
naming that column, otherwise all rows of all row groups are returned. -/
def decode (required : List String) : ColumnFile → Except DecodeError (List Doc)
  | .corrupt => .error .structural
  | .table columns rowGroups =>
    match required.find? (fun c => !columns.contains c) with
    | some c => .error (.schemaMismatch c)
    | none => .ok (rowGroups.flatMap (rowsOf required))

/-- Modelled from the spec: the columns an entity kind requires and the mapping of a decoded
row to a record; the design document fixes neither the column names nor the mapping
(package `internal/parquet`). -/
structure Schema (α : Type) where
  required : List String
  build : Doc → α

/-- Modelled from the spec: the entry point `parquet.ParseRoster(data, year)`; the season
of every record is the one supplied by the caller. -/
def ParseRoster (schema : Schema Player) (data : ColumnFile) (year : Int) :
    Except DecodeError (List Player) :=
  (decode schema.required data).map
    (List.map (fun row => { schema.build row with Season := year }))

/-- Modelled from the spec: the entry point `parquet.ParseSchedules(data)`. -/
def ParseSchedules (schema : Schema Game) (data : ColumnFile) :
    Except DecodeError (List Game) :=
  (decode schema.required data).map (List.map schema.build)

/-- Modelled from the spec: the entry point `parquet.ParsePlayerStats(data, year,
seasonType)`; season and season type of every record are the ones supplied by the
caller. -/
def ParsePlayerStats (schema : Schema PlayerStats) (data : ColumnFile) (year : Int)
    (seasonType : String) : Except DecodeError (List PlayerStats) :=
  (decode schema.required data).map
    (List.map (fun row => { schema.build row with Season := year, SeasonType := seasonType }))

/-- Modelled from the spec: the entry point `parquet.ParseWeeklyStats(data, year)`. -/
def ParseWeeklyStats (schema : Schema WeeklyStats) (data : ColumnFile) (year : Int) :
    Except DecodeError (List WeeklyStats) :=
  (decode schema.required data).map
    (List.map (fun row => { schema.build row with Season := year }))

/-! ## Scenarios of the design document -/

/-- A roster file for season 2024: three rows with a player identifier and one without. -/
def rosterScenario : List Player :=
  [ { NFLID := "P1", Season := 2024, Name := "Ann", rest := Doc.empty },
    { NFLID := "", Season := 2024, Name := "Nobody", rest := Doc.empty },
    { NFLID := "P2", Season := 2024, Name := "Bob", rest := Doc.empty },
    { NFLID := "P3", Season := 2024, Name := "Cy", rest := Doc.empty } ]

/-- A weekly statistic of player P1 in season 2023 with the given week and yards. -/
def weeklyOf (week yards : Int) : WeeklyStats :=
  { NFLID := "P1", Season := 2023, Week := week,
    rest := Doc.set Doc.empty "yards" (.int yards) }

/-- A weekly file of season 2023: weeks 1 to 3 of player P1. -/
def weeklyScenario : List WeeklyStats := [weeklyOf 1 40, weeklyOf 2 55, weeklyOf 3 50]

/-- The same file with the values of week 3 changed. -/
def weeklyScenarioChanged : List WeeklyStats := [weeklyOf 1 40, weeklyOf 2 55, weeklyOf 3 80]

/-- A stored weekly statistic for (P1, 2023, 3) that carries the store-assigned identifier
and a field `note` besides the fields of the record type. -/
def storedWeek3 : Doc :=
  Doc.set (Doc.set (weeklyOf 3 50).doc "_id" (.int 7)) "note" (.str "questionable")

/-! ## Auxiliary notions for the proofs -/

/-- The collection after the loop when every call succeeds, as a recursion of its own. -/
def run {α : Type} (L : Loop α) : List Doc → List α → List Doc
  | S, [] => S
  | S, r :: rs => run L (if L.guard r then S else UpdateOne S (L.filter r) (L.doc r)) rs

/-- The record `r` passes the guard and its filter selects the document `d`. -/
def hit {α : Type} (L : Loop α) (d : Doc) (r : α) : Bool :=
  !L.guard r && (L.filter r).sat d

/-- The document `d` after all the records that select it have been set on it, in order. -/
def absorb {α : Type} (L : Loop α) : Doc → List α → Doc
  | d, [] => d
  | d, r :: rs => absorb L (if hit L d r then setFields d (L.doc r) else d) rs

/-- The fields that the records selecting `d` assign, later records taking precedence. -/
def assigned {α : Type} (L : Loop α) (d : Doc) : List α → Doc
  | [] => Doc.empty
  | r :: rs => setFields (if hit L d r then L.doc r else Doc.empty) (assigned L d rs)

/-- The natural key of a stored roster entry: the values of `nfl_id` and `season`. -/
def playerKey (d : Doc) : List (Option Value) := [d "nfl_id", d "season"]

/-- The natural key of a stored game. -/
def gameKey (d : Doc) : List (Option Value) := [d "game_id"]

/-- The natural key of a stored seasonal statistic. -/
def statsKey (d : Doc) : List (Option Value) := [d "nfl_id", d "season", d "season_type"]

/-- The natural key of a stored weekly statistic. -/
def weeklyKey (d : Doc) : List (Option Value) := [d "nfl_id", d "season", d "week"]

/-- The natural key of a decoded record, read off its filter. -/
def recKey {α : Type} (L : Loop α) (r : α) : List (Option Value) :=
  (L.filter r).map (fun p => some p.2)

/-- The filter of a loop selects exactly the documents with the key of the record, and a
document on which the record has been set has the key of the record. -/
structure Lawful {α : Type} (L : Loop α) (dk : Doc → List (Option Value)) : Prop where
  sat_iff : ∀ r d, (L.filter r).sat d = true ↔ dk d = recKey L r
  key_set : ∀ r d, dk (setFields d (L.doc r)) = recKey L r
  seed_doc : ∀ r, setFields (L.filter r).seed (L.doc r) = L.doc r

/-! ## The properties of a loop, stated once for all four loops -/

/-- The loop keeps natural keys unique: a collection in which no two entities have the
same natural key is still such a collection after the loop, whatever the records are and
whatever the store answers. -/
def PreservesUniqueKeys {α : Type} (L : Loop α) (dk : Doc → List (Option Value)) : Prop :=
  ∀ (store : Nat → StoreResult) (S : List Doc) (R : List α),
    (S.map dk).Nodup → ((upsertLoop L store S R).coll.map dk).Nodup

/-- The loop leaves alone what no record addresses: a stored entity whose natural key is
the key of no record that passes the guard is the same entity, at the same place, after
the loop; and when no record passes the guard the collection is unchanged and the
reported count is 0.  The store may answer anything. -/
def Frame {α : Type} (L : Loop α) (dk : Doc → List (Option Value)) : Prop :=
  ∀ (store : Nat → StoreResult) (S : List Doc) (R : List α),
    (∀ (i : Nat) (d : Doc), S[i]? = some d →
      (∀ r ∈ R, L.guard r = false → dk d ≠ recKey L r) →
      (upsertLoop L store S R).coll[i]? = some d) ∧
    ((∀ r ∈ R, L.guard r = true) →
      (upsertLoop L store S R).coll = S ∧ (upsertLoop L store S R).inserted = 0)

/-- The loop skips what its guard rejects: for a record at position `j` that the guard
rejects, no `UpdateOne` call is issued for position `j`, the iteration changes nothing but
the count of skipped records, and the reported count never exceeds the number of records
that pass the guard.  The store may answer anything. -/
def SkipsGuarded {α : Type} (L : Loop α) : Prop :=
  ∀ (store : Nat → StoreResult) (S : List Doc) (R : List α) (j : Nat) (r : α),
    R[j]? = some r → L.guard r = true →
      j ∉ (upsertLoop L store S R).issued ∧
      (∀ (res : StoreResult) (i : Nat) (acc : SyncResult),
        step L res i r acc = { acc with skipped := acc.skipped + 1 }) ∧
      (upsertLoop L store S R).inserted ≤ R.countP (fun r => !L.guard r)

/-- The loop isolates a failing upsert.  When the call for the record at position `k`, a
record that passes the guard, returns an error and every other call succeeds, then for
every later record `r` that passes the guard the call is issued and the final collection
holds an entity with the natural key of `r`; this entity carries every field of `r` unless
a still later record that passes the guard has the same key.  The reported count is the
length of the sequence minus one minus the number of records the guard rejects, and one
record counts as failed. -/
def IsolatesFailure {α : Type} (L : Loop α) : Prop :=
  ∀ (store : Nat → StoreResult) (S : List Doc) (R : List α) (k : Nat) (rk : α),
    R[k]? = some rk → L.guard rk = false → (store k).succeeded = false →
    (∀ j, j ≠ k → store j = .ok) →
      (∀ (j : Nat) (r : α), k < j → R[j]? = some r → L.guard r = false →
        j ∈ (upsertLoop L store S R).issued ∧
        (∃ d ∈ (upsertLoop L store S R).coll, (L.filter r).sat d = true) ∧
        ((∀ (j2 : Nat) (s : α), j < j2 → R[j2]? = some s → L.guard s = false →
            recKey L s ≠ recKey L r) →
          ∃ d, (upsertLoop L store S R).coll.find? (L.filter r).sat = some d ∧
            ∀ f v, L.doc r f = some v → d f = some v)) ∧
      (upsertLoop L store S R).inserted = R.length - 1 - R.countP L.guard ∧
      (upsertLoop L store S R).failed = 1

/-- What a successful upsert of `r` does.  If some entity has the natural key of `r`, the
first such entity is updated in place: the collection keeps its length and its number of
entities with that key, every field that `r` carries takes the value of `r`, and every
field that `r` does not carry keeps its stored value.  If no entity has the key, one new
entity, equal to the marshalled `r`, is added at the end. -/
def UpsertSemantics {α : Type} (L : Loop α) : Prop :=
  ∀ (S : List Doc) (r : α),
    (∀ d, S.find? (L.filter r).sat = some d →
      (UpdateOne S (L.filter r) (L.doc r)).length = S.length ∧
      (UpdateOne S (L.filter r) (L.doc r)).countP (L.filter r).sat
        = S.countP (L.filter r).sat ∧
      (UpdateOne S (L.filter r) (L.doc r)).find? (L.filter r).sat
        = some (setFields d (L.doc r)) ∧
      (∀ f v, L.doc r f = some v → setFields d (L.doc r) f = some v) ∧
      (∀ f, L.doc r f = none → setFields d (L.doc r) f = d f)) ∧
    (S.find? (L.filter r).sat = none →
      UpdateOne S (L.filter r) (L.doc r) = S ++ [L.doc r])

/-- The order of the records does not matter when keys are unique.  Records are applied
one after the other (the loop on `R₁ ++ R₂` is the loop on `R₂` after the loop on `R₁`);
and if the records that pass the guard have pairwise distinct natural keys, then for every
reordering of the sequence, with every upsert succeeding, the final collection holds the
same entities and the reported count is the same. -/
def OrderIndependent {α : Type} (L : Loop α) : Prop :=
  (∀ (S : List Doc) (R₁ R₂ : List α), sync L S (R₁ ++ R₂) = sync L (sync L S R₁) R₂) ∧
  ∀ (S : List Doc) (R R2 : List α), R.Perm R2 →
    ((R.filter (fun r => !L.guard r)).map (recKey L)).Nodup →
      (sync L S R).Perm (sync L S R2) ∧
      (upsertLoop L allOk S R).inserted = (upsertLoop L allOk S R2).inserted

/-- The years of a multi-year loop do not affect one another through failures: a year
whose file is missing, unreadable or rejected by the decoder leaves collection, running
total and issued calls as they are, and the loop over a list of years ends in the state in
which the loop over the usable years of the list ends. -/
def YearsIsolated {α : Type} (L : Loop α) : Prop :=
  ∀ (files : Int → FileOutcome α) (store : Int → Nat → StoreResult) (ys : List Int)
    (st : LoadState),
    (∀ y, (files y).usable = false → yearStep L files store y st = st) ∧
    loadYears L files store ys st
      = loadYears L files store (ys.filter (fun y => (files y).usable)) st

/-- A roster cache in which 2020 is missing, 2021 cannot be read, 2022 is rejected by the
decoder, 2023 holds the roster scenario and the other years decode to no record. -/
def cacheScenario : Int → FileOutcome Player := fun y =>
  if y = 2020 then .missing
  else if y = 2021 then .readError
  else if y = 2022 then .read (.error .structural)
  else if y = 2023 then .read (.ok rosterScenario)
  else .read (.ok [])

/-- A roster schema with two required columns. -/
def schemaScenario : Schema Player where
  required := ["gsis_id", "full_name"]
  build := fun row =>
    { NFLID := match row "gsis_id" with
        | some (.str s) => s
        | _ => ""
      Season := 0
      Name := match row "full_name" with
        | some (.str s) => s
        | _ => ""
      rest := Doc.empty }

/-- The first entity selected by the filter of `r` carries every field of `r`. -/
def Carries {α : Type} (L : Loop α) (r : α) (T : List Doc) : Prop :=
  ∃ d, T.find? (L.filter r).sat = some d ∧ ∀ f v, L.doc r f = some v → d f = some v

/-- A store that answers `res` to the call for the record at position `k` and succeeds on
every other call. -/
def failAt (k : Nat) (res : StoreResult) : Nat → StoreResult :=
  fun j => if j = k then res else .ok

/-! ## Laws of the four loops -/

theorem rosterLoop_lawful : Lawful rosterLoop playerKey := by
  constructor
  · intro r d
    simp [rosterLoop, Filter.sat, playerKey, recKey]
  · intro r d
    simp [rosterLoop, setFields, playerKey, recKey, Player.doc]
  · intro r
    funext k
    simp only [setFields, Filter.seed, rosterLoop, Player.doc, List.lookup]
    split <;> rename_i hk
    · exact hk.symm
    · rw [hk]
      split_ifs at hk
      repeat' split
      all_goals simp_all

theorem gamesLoop_lawful : Lawful gamesLoop gameKey := by
  constructor
  · intro r d
    simp [gamesLoop, Filter.sat, gameKey, recKey]
  · intro r d
    simp [gamesLoop, setFields, gameKey, recKey, Game.doc]
  · intro r
    funext k
    simp only [setFields, Filter.seed, gamesLoop, Game.doc, List.lookup]
    split <;> rename_i hk
    · exact hk.symm
    · rw [hk]
      split_ifs at hk
      repeat' split
      all_goals simp_all

theorem statsLoop_lawful : Lawful statsLoop statsKey := by
  constructor
  · intro r d
    simp [statsLoop, Filter.sat, statsKey, recKey, and_assoc]
  · intro r d
    simp [statsLoop, setFields, statsKey, recKey, PlayerStats.doc]
  · intro r
    funext k
    simp only [setFields, Filter.seed, statsLoop, PlayerStats.doc, List.lookup]
    split <;> rename_i hk
    · exact hk.symm
    · rw [hk]
      split_ifs at hk
      repeat' split
      all_goals simp_all

theorem weeklyLoop_lawful : Lawful weeklyLoop weeklyKey := by
  constructor
  · intro r d
    simp [weeklyLoop, Filter.sat, weeklyKey, recKey, and_assoc]
  · intro r d
    simp [weeklyLoop, setFields, weeklyKey, recKey, WeeklyStats.doc]
  · intro r
    funext k
    simp only [setFields, Filter.seed, weeklyLoop, WeeklyStats.doc, List.lookup]
    split <;> rename_i hk
    · exact hk.symm
    · rw [hk]
      split_ifs at hk
      repeat' split
      all_goals simp_all

/-! ## The `$set` update -/

theorem setFields_assoc (d u a : Doc) :
    setFields (setFields d u) a = setFields d (setFields u a) := by
  funext k
  simp only [setFields]
  cases a k <;> rfl

theorem setFields_empty (d : Doc) : setFields d Doc.empty = d := by
  funext k
  simp [setFields, Doc.empty]

theorem setFields_idem (d u : Doc) : setFields (setFields d u) u = setFields d u := by
  funext k
  simp only [setFields]
  cases u k <;> rfl

/-! ## Keys under `UpdateOne` -/

theorem UpdateOne_cons_of_sat {d : Doc} {ds : List Doc} {f : Filter} {u : Doc}
    (hs : f.sat d = true) : UpdateOne (d :: ds) f u = setFields d u :: ds := by
  simp [UpdateOne, hs]

theorem UpdateOne_cons_of_not {d : Doc} {ds : List Doc} {f : Filter} {u : Doc}
    (hs : f.sat d = false) : UpdateOne (d :: ds) f u = d :: UpdateOne ds f u := by
  simp [UpdateOne, hs]

section Laws

variable {α : Type} {L : Loop α} {dk : Doc → List (Option Value)}

theorem hit_eq (h : Lawful L dk) (d : Doc) (r : α) :
    hit L d r = (!L.guard r && decide (dk d = recKey L r)) := by
  unfold hit
  congr 1
  rw [Bool.eq_iff_iff]
  simp [h.sat_iff]

theorem hit_congr (h : Lawful L dk) {d e : Doc} (hk : dk d = dk e) : hit L d = hit L e := by
  funext r
  rw [hit_eq h, hit_eq h, hk]

theorem dk_setFields_of_sat (h : Lawful L dk) {d : Doc} {r : α}
    (hs : (L.filter r).sat d = true) : dk (setFields d (L.doc r)) = dk d := by
  rw [h.key_set, (h.sat_iff r d).1 hs]

theorem map_dk_UpdateOne (h : Lawful L dk) (S : List Doc) (r : α) :
    (UpdateOne S (L.filter r) (L.doc r)).map dk =
      if recKey L r ∈ S.map dk then S.map dk else S.map dk ++ [recKey L r] := by
  induction S with
  | nil => simp [UpdateOne, h.key_set]
  | cons d ds ih =>
    by_cases hs : (L.filter r).sat d = true
    · have hk := (h.sat_iff r d).1 hs
      rw [UpdateOne_cons_of_sat hs]
      simp [h.key_set, hk]
    · have hk : ¬ dk d = recKey L r := fun e => hs ((h.sat_iff r d).2 e)
      have hk2 : ¬ recKey L r = dk d := fun e => hk e.symm
      have hs2 : (L.filter r).sat d = false := by simpa using hs
      rw [UpdateOne_cons_of_not hs2, List.map_cons, ih]
      by_cases hm : recKey L r ∈ ds.map dk
      · simp [hm]
      · simp [hm, hk2]

theorem sat_of_hit {d : Doc} {r : α} (hh : hit L d r = true) :
    (L.filter r).sat d = true := by
  simp only [hit, Bool.and_eq_true] at hh
  exact hh.2

theorem guard_of_hit {d : Doc} {r : α} (hh : hit L d r = true) : L.guard r = false := by
  simp only [hit, Bool.and_eq_true, Bool.not_eq_true'] at hh
  exact hh.1

theorem dk_absorb (h : Lawful L dk) (d : Doc) (R : List α) : dk (absorb L d R) = dk d := by
  induction R generalizing d with
  | nil => rfl
  | cons r rs ih =>
    simp only [absorb]
    by_cases hh : hit L d r = true
    · rw [if_pos hh, ih]
      exact dk_setFields_of_sat h (sat_of_hit hh)
    · rw [if_neg hh, ih]

theorem assigned_congr (h : Lawful L dk) {d e : Doc} (hk : dk d = dk e) (R : List α) :
    assigned L d R = assigned L e R := by
  induction R with
  | nil => rfl
  | cons r rs ih => simp only [assigned, hit_congr h hk, ih]

theorem absorb_eq (h : Lawful L dk) (d : Doc) (R : List α) :
    absorb L d R = setFields d (assigned L d R) := by
  induction R generalizing d with
  | nil => simp [absorb, assigned, setFields_empty]
  | cons r rs ih =>
    simp only [absorb, assigned]
    by_cases hh : hit L d r = true
    · rw [if_pos hh, if_pos hh, ih, setFields_assoc,
        assigned_congr h (dk_setFields_of_sat h (sat_of_hit hh))]
    · rw [if_neg hh, if_neg hh, ih, ← setFields_assoc, setFields_empty]

theorem absorb_idem (h : Lawful L dk) (d : Doc) (R : List α) :
    absorb L (absorb L d R) R = absorb L d R := by
  rw [absorb_eq h (absorb L d R) R, assigned_congr h (dk_absorb h d R), absorb_eq h d R,
    setFields_idem]

/-- The loop on a non-empty collection: the head absorbs the records that select it, the
other records act on the tail. -/
theorem run_cons (h : Lawful L dk) (d : Doc) (ds : List Doc) (R : List α) :
    run L (d :: ds) R = absorb L d R :: run L ds (R.filter (fun r => !hit L d r)) := by
  induction R generalizing d ds with
  | nil => rfl
  | cons r rs ih =>
    by_cases hg : L.guard r = true
    · have hh : hit L d r = false := by simp [hit, hg]
      simp only [run, absorb, hg, hh, if_true, List.filter_cons, Bool.not_false]
      simp only [Bool.false_eq_true, if_false]
      rw [ih]
    · have hg2 : L.guard r = false := by simpa using hg
      by_cases hs : (L.filter r).sat d = true
      · have hh : hit L d r = true := by simp [hit, hg2, hs]
        simp only [run, absorb, hg2, hh, if_true, List.filter_cons, Bool.not_true,
          Bool.false_eq_true, if_false]
        rw [UpdateOne_cons_of_sat hs, ih,
          hit_congr h (dk_setFields_of_sat h hs)]
      · have hs2 : (L.filter r).sat d = false := by simpa using hs
        have hh : hit L d r = false := by simp [hit, hs2]
        simp only [run, absorb, hg2, hh, List.filter_cons, Bool.not_false, if_true,
          Bool.false_eq_true, if_false]
        rw [UpdateOne_cons_of_not hs2, ih]

theorem length_filter_not_hit_lt (d : Doc) (r : α) (rs : List α) (hh : hit L d r = true) :
    ((r :: rs).filter (fun s => !hit L d s)).length < (r :: rs).length := by
  simp only [List.filter_cons, hh, Bool.not_true, Bool.false_eq_true, if_false,
    List.length_cons]
  exact Nat.lt_succ_of_le (List.length_filter_le _ _)

/-- The first record that passes the guard, run on the empty collection, leaves a document
that selects this record and is a fixed point of its update. -/
theorem run_nil_cons (h : Lawful L dk) (r : α) (rs : List α) (hg : L.guard r = false) :
    ∃ n : Doc, hit L n r = true ∧
      run L [] (r :: rs) =
        absorb L n (r :: rs) :: run L [] ((r :: rs).filter (fun s => !hit L n s)) := by
  refine ⟨setFields (L.filter r).seed (L.doc r), ?_, ?_⟩
  · rw [hit_eq h, h.key_set]
    simp [hg]
  · have hh : hit L (setFields (L.filter r).seed (L.doc r)) r = true := by
      rw [hit_eq h, h.key_set]
      simp [hg]
    simp only [run, hg, Bool.false_eq_true, if_false, UpdateOne]
    rw [run_cons h]
    simp only [absorb, hh, if_true, setFields_idem, List.filter_cons, Bool.not_true,
      Bool.false_eq_true, if_false]

theorem run_idem_aux (h : Lawful L dk) :
    ∀ (n : Nat) (R : List α), R.length ≤ n → ∀ S : List Doc,
      run L (run L S R) R = run L S R := by
  intro n
  induction n with
  | zero =>
    intro R hR S
    have : R = [] := List.length_eq_zero.1 (Nat.le_zero.1 hR)
    subst this
    rfl
  | succ n ihn =>
    intro R hR S
    induction S generalizing R with
    | nil =>
      cases R with
      | nil => rfl
      | cons r rs =>
        by_cases hg : L.guard r = true
        · have e : ∀ T, run L T (r :: rs) = run L T rs := by
            intro T
            simp [run, hg]
          rw [e, e]
          exact ihn rs (by simpa using hR) []
        · have hg2 : L.guard r = false := by simpa using hg
          obtain ⟨nw, hh, e⟩ := run_nil_cons h r rs hg2
          have hlt := length_filter_not_hit_lt nw r rs hh
          rw [e, run_cons h, absorb_idem h, hit_congr h (dk_absorb h nw (r :: rs))]
          congr 1
          apply ihn
          simp only [List.length_cons] at hR hlt
          omega
    | cons d ds ihS =>
      rw [run_cons h, run_cons h, absorb_idem h, hit_congr h (dk_absorb h d R)]
      congr 1
      exact ihS _ (le_trans (List.length_filter_le _ _) hR)

/-- Running the loop a second time on the same records changes nothing. -/
theorem run_idem (h : Lawful L dk) (S : List Doc) (R : List α) :
    run L (run L S R) R = run L S R :=
  run_idem_aux h R.length R (le_refl _) S

end Laws

/-! ## The loop, component by component -/

section Components

variable {α : Type} (L : Loop α)

theorem step_guard {r : α} (hg : L.guard r = true) (res : StoreResult) (i : Nat)
    (acc : SyncResult) : step L res i r acc = { acc with skipped := acc.skipped + 1 } := by
  simp [step, hg]

theorem upsertFrom_coll_allOk (i : Nat) (rs : List α) (acc : SyncResult) :
    (upsertFrom L allOk i rs acc).coll = run L acc.coll rs := by
  induction rs generalizing i acc with
  | nil => rfl
  | cons r rs ih =>
    rw [upsertFrom, ih, run]
    by_cases hg : L.guard r = true
    · simp [step, hg]
    · simp [step, hg, allOk]

theorem sync_eq_run (S : List Doc) (R : List α) : sync L S R = run L S R := by
  simp [sync, upsertLoop, upsertFrom_coll_allOk, SyncResult.start]

theorem upsertFrom_skipped (store : Nat → StoreResult) (i : Nat) (rs : List α)
    (acc : SyncResult) :
    (upsertFrom L store i rs acc).skipped = acc.skipped + rs.countP L.guard := by
  induction rs generalizing i acc with
  | nil => simp [upsertFrom]
  | cons r rs ih =>
    rw [upsertFrom, ih]
    by_cases hg : L.guard r = true
    · simp [step, hg, List.countP_cons]
      omega
    · simp only [step, hg, Bool.false_eq_true, if_false, List.countP_cons]
      cases store i <;> simp

theorem upsertFrom_sum (store : Nat → StoreResult) (i : Nat) (rs : List α)
    (acc : SyncResult) :
    (upsertFrom L store i rs acc).inserted + (upsertFrom L store i rs acc).skipped
        + (upsertFrom L store i rs acc).failed
      = acc.inserted + acc.skipped + acc.failed + rs.length := by
  induction rs generalizing i acc with
  | nil => simp [upsertFrom]
  | cons r rs ih =>
    rw [upsertFrom, ih]
    by_cases hg : L.guard r = true
    · simp [step, hg]
      omega
    · simp only [step, hg, Bool.false_eq_true, if_false, List.length_cons]
      cases store i <;> simp <;> omega

theorem upsertFrom_failed_of_ok (store : Nat → StoreResult) (i : Nat) (rs : List α)
    (acc : SyncResult) (hok : ∀ j, i ≤ j → store j = .ok) :
    (upsertFrom L store i rs acc).failed = acc.failed := by
  induction rs generalizing i acc with
  | nil => simp [upsertFrom]
  | cons r rs ih =>
    rw [upsertFrom, ih _ _ (fun j hj => hok j (by omega))]
    by_cases hg : L.guard r = true
    · simp [step, hg]
    · simp [step, hg, hok i (le_refl i)]

theorem countP_guard_add (rs : List α) :
    rs.countP (fun r => !L.guard r) + rs.countP L.guard = rs.length := by
  induction rs with
  | nil => rfl
  | cons r rs ih =>
    by_cases hg : L.guard r = true
    · simp [List.countP_cons, hg]
      omega
    · simp [List.countP_cons, hg]
      omega

/-- The counters of a run on which every call succeeds. -/
theorem upsertLoop_allOk_counts (S : List Doc) (R : List α) :
    (upsertLoop L allOk S R).inserted = R.countP (fun r => !L.guard r) ∧
    (upsertLoop L allOk S R).skipped = R.countP L.guard ∧
    (upsertLoop L allOk S R).failed = 0 := by
  have h1 : (upsertFrom L allOk 0 R (SyncResult.start S)).skipped = 0 + R.countP L.guard :=
    upsertFrom_skipped L allOk 0 R (SyncResult.start S)
  have h2 : (upsertFrom L allOk 0 R (SyncResult.start S)).inserted
      + (upsertFrom L allOk 0 R (SyncResult.start S)).skipped
      + (upsertFrom L allOk 0 R (SyncResult.start S)).failed = 0 + 0 + 0 + R.length :=
    upsertFrom_sum L allOk 0 R (SyncResult.start S)
  have h3 : (upsertFrom L allOk 0 R (SyncResult.start S)).failed = 0 :=
    upsertFrom_failed_of_ok L allOk 0 R (SyncResult.start S) (fun _ _ => rfl)
  have h4 := countP_guard_add L R
  simp only [upsertLoop]
  refine ⟨?_, ?_, ?_⟩ <;> omega

end Components

/-! ## Invariants of the collection under any store -/

section Invariants

variable {α : Type} {L : Loop α} {dk : Doc → List (Option Value)}

/-- A property of the collection that every upsert of a record of the sequence keeps is
kept by the loop, whatever the store answers. -/
theorem upsertFrom_coll_induction (store : Nat → StoreResult) (P : List Doc → Prop)
    (rs : List α)
    (hP : ∀ S r, r ∈ rs → L.guard r = false → P S →
      P (UpdateOne S (L.filter r) (L.doc r))) :
    ∀ (i : Nat) (acc : SyncResult), P acc.coll → P (upsertFrom L store i rs acc).coll := by
  induction rs with
  | nil => intro i acc h; exact h
  | cons r rs ih =>
    intro i acc h
    rw [upsertFrom]
    apply ih (fun S s hs => hP S s (List.mem_cons_of_mem _ hs))
    by_cases hg : L.guard r = true
    · simpa [step, hg] using h
    · have hg2 : L.guard r = false := by simpa using hg
      have hu := hP acc.coll r (List.mem_cons_self _ _) hg2 h
      simp only [step, hg, Bool.false_eq_true, if_false]
      cases store i
      · exact hu
      · exact h
      · exact hu

theorem nodup_UpdateOne (h : Lawful L dk) (S : List Doc) (r : α) (hn : (S.map dk).Nodup) :
    ((UpdateOne S (L.filter r) (L.doc r)).map dk).Nodup := by
  rw [map_dk_UpdateOne h]
  by_cases hm : recKey L r ∈ S.map dk
  · rw [if_pos hm]
    exact hn
  · rw [if_neg hm]
    exact List.Nodup.append hn (List.nodup_singleton _) (by simpa using hm)

theorem preservesUniqueKeys_of_lawful (h : Lawful L dk) : PreservesUniqueKeys L dk := by
  intro store S R hn
  exact upsertFrom_coll_induction store (fun T => (T.map dk).Nodup) R
    (fun T r _ _ hT => nodup_UpdateOne h T r hT) 0 (SyncResult.start S) hn

theorem UpdateOne_getElem?_of_not_sat {f : Filter} {u d : Doc} (hs : f.sat d = false) :
    ∀ (T : List Doc) (i : Nat), T[i]? = some d → (UpdateOne T f u)[i]? = some d := by
  intro T
  induction T with
  | nil => intro i h; simp at h
  | cons e es ih =>
    intro i h
    cases i with
    | zero =>
      simp only [List.getElem?_cons_zero, Option.some.injEq] at h
      subst h
      rw [UpdateOne_cons_of_not hs]
      simp
    | succ i =>
      simp only [List.getElem?_cons_succ] at h
      by_cases he : f.sat e = true
      · rw [UpdateOne_cons_of_sat he]
        simpa using h
      · have he2 : f.sat e = false := by simpa using he
        rw [UpdateOne_cons_of_not he2]
        simpa using ih i h

theorem upsertFrom_of_all_guard (store : Nat → StoreResult) (rs : List α)
    (hg : ∀ r ∈ rs, L.guard r = true) (i : Nat) (acc : SyncResult) :
    (upsertFrom L store i rs acc).coll = acc.coll ∧
      (upsertFrom L store i rs acc).inserted = acc.inserted := by
  induction rs generalizing i acc with
  | nil => exact ⟨rfl, rfl⟩
  | cons r rs ih =>
    rw [upsertFrom]
    have h1 := ih (fun s hs => hg s (List.mem_cons_of_mem _ hs)) (i + 1)
      (step L (store i) i r acc)
    rw [step_guard L (hg r (List.mem_cons_self _ _))] at h1 ⊢
    exact h1

theorem frame_of_lawful (h : Lawful L dk) : Frame L dk := by
  intro store S R
  constructor
  · intro i d hi hR
    refine upsertFrom_coll_induction store (fun T => T[i]? = some d) R ?_ 0
      (SyncResult.start S) hi
    intro T r hr hg hT
    apply UpdateOne_getElem?_of_not_sat _ T i hT
    have hne := hR r hr hg
    cases hs : (L.filter r).sat d with
    | false => rfl
    | true => exact absurd ((h.sat_iff r d).1 hs) hne
  · intro hg
    exact upsertFrom_of_all_guard store R hg 0 (SyncResult.start S)

theorem exists_cons_index {r : α} {rs : List α} {G : α → Prop} {i m : Nat} :
    (∃ j s, (r :: rs)[j]? = some s ∧ G s ∧ m = i + j) ↔
      (G r ∧ m = i) ∨ ∃ j s, rs[j]? = some s ∧ G s ∧ m = i + 1 + j := by
  constructor
  · rintro ⟨j, s, h1, h2, h3⟩
    cases j with
    | zero =>
      simp only [List.getElem?_cons_zero, Option.some.injEq] at h1
      subst h1
      exact Or.inl ⟨h2, by omega⟩
    | succ j =>
      simp only [List.getElem?_cons_succ] at h1
      exact Or.inr ⟨j, s, h1, h2, by omega⟩
  · rintro (⟨h2, h3⟩ | ⟨j, s, h1, h2, h3⟩)
    · exact ⟨0, r, by simp, h2, by omega⟩
    · exact ⟨j + 1, s, by simpa using h1, h2, by omega⟩

/-- The positions for which `UpdateOne` is called are those of the records that pass the
guard. -/
theorem mem_issued_upsertFrom (store : Nat → StoreResult) (rs : List α) :
    ∀ (i : Nat) (acc : SyncResult) (m : Nat),
      m ∈ (upsertFrom L store i rs acc).issued ↔
        m ∈ acc.issued ∨ ∃ j s, rs[j]? = some s ∧ L.guard s = false ∧ m = i + j := by
  induction rs with
  | nil => intro i acc m; simp [upsertFrom]
  | cons r rs ih =>
    intro i acc m
    rw [upsertFrom, ih, exists_cons_index]
    by_cases hg : L.guard r = true
    · simp [step, hg]
    · have hg2 : L.guard r = false := by simpa using hg
      have e : (step L (store i) i r acc).issued = acc.issued ++ [i] := by
        simp only [step, hg, Bool.false_eq_true, if_false]
        cases store i <;> rfl
      rw [e]
      simp only [List.mem_append, List.mem_singleton, hg2, true_and]
      tauto

theorem mem_issued_upsertLoop (store : Nat → StoreResult) (S : List Doc) (R : List α)
    (m : Nat) :
    m ∈ (upsertLoop L store S R).issued ↔ ∃ s, R[m]? = some s ∧ L.guard s = false := by
  rw [upsertLoop, mem_issued_upsertFrom]
  simp only [SyncResult.start, List.not_mem_nil, false_or, Nat.zero_add]
  constructor
  · rintro ⟨j, s, h1, h2, rfl⟩
    exact ⟨s, h1, h2⟩
  · rintro ⟨s, h1, h2⟩
    exact ⟨m, s, h1, h2, rfl⟩

theorem skipsGuarded (L : Loop α) : SkipsGuarded L := by
  intro store S R j r hj hg
  refine ⟨?_, fun res i acc => step_guard L hg res i acc, ?_⟩
  · rw [mem_issued_upsertLoop]
    rintro ⟨s, hs, hgs⟩
    rw [hj] at hs
    cases hs
    rw [hg] at hgs
    cases hgs
  · have h1 : (upsertFrom L store 0 R (SyncResult.start S)).skipped
        = 0 + R.countP L.guard := upsertFrom_skipped L store 0 R (SyncResult.start S)
    have h2 : (upsertFrom L store 0 R (SyncResult.start S)).inserted
        + (upsertFrom L store 0 R (SyncResult.start S)).skipped
        + (upsertFrom L store 0 R (SyncResult.start S)).failed = 0 + 0 + 0 + R.length :=
      upsertFrom_sum L store 0 R (SyncResult.start S)
    have h4 := countP_guard_add L R
    simp only [upsertLoop]
    omega

theorem upsertFrom_failed_one (store : Nat → StoreResult) (k : Nat)
    (hk : (store k).succeeded = false) (hok : ∀ j, j ≠ k → store j = .ok) :
    ∀ (rs : List α) (i : Nat) (acc : SyncResult), i ≤ k → ∀ r, rs[k - i]? = some r →
      L.guard r = false → (upsertFrom L store i rs acc).failed = acc.failed + 1 := by
  intro rs
  induction rs with
  | nil => intro i acc _ r h; simp at h
  | cons r0 rs ih =>
    intro i acc hik r hr hg
    rw [upsertFrom]
    rcases Nat.eq_or_lt_of_le hik with e | hlt
    · subst e
      simp only [Nat.sub_self, List.getElem?_cons_zero, Option.some.injEq] at hr
      subst hr
      rw [upsertFrom_failed_of_ok L store (i + 1) rs _
        (fun j hj => hok j (by omega))]
      simp only [step, hg, Bool.false_eq_true, if_false]
      cases hs : store i with
      | ok => rw [hs] at hk; cases hk
      | errNotApplied => rfl
      | errApplied => rfl
    · have e : k - i = (k - (i + 1)) + 1 := by omega
      rw [e, List.getElem?_cons_succ] at hr
      rw [ih (i + 1) _ (by omega) r hr hg]
      have hi : store i = .ok := hok i (by omega)
      by_cases hg0 : L.guard r0 = true
      · simp [step, hg0]
      · simp [step, hg0, hi]

theorem key_mem_UpdateOne (h : Lawful L dk) (S : List Doc) (r : α) :
    recKey L r ∈ (UpdateOne S (L.filter r) (L.doc r)).map dk := by
  rw [map_dk_UpdateOne h]
  by_cases hm : recKey L r ∈ S.map dk
  · rw [if_pos hm]
    exact hm
  · rw [if_neg hm]
    simp

theorem key_mem_UpdateOne_of_mem (h : Lawful L dk) (S : List Doc) (r : α)
    {q : List (Option Value)} (hq : q ∈ S.map dk) :
    q ∈ (UpdateOne S (L.filter r) (L.doc r)).map dk := by
  rw [map_dk_UpdateOne h]
  by_cases hm : recKey L r ∈ S.map dk
  · rw [if_pos hm]
    exact hq
  · rw [if_neg hm]
    exact List.mem_append_left _ hq

theorem key_mem_of_written (h : Lawful L dk) (store : Nat → StoreResult) :
    ∀ (rs : List α) (i : Nat) (acc : SyncResult) (j : Nat) (r : α), rs[j]? = some r →
      L.guard r = false → (store (i + j)).written = true →
      recKey L r ∈ (upsertFrom L store i rs acc).coll.map dk := by
  intro rs
  induction rs with
  | nil => intro i acc j r hr; simp at hr
  | cons r0 rs ih =>
    intro i acc j r hr hg hw
    rw [upsertFrom]
    cases j with
    | zero =>
      simp only [List.getElem?_cons_zero, Option.some.injEq] at hr
      subst hr
      refine upsertFrom_coll_induction store (fun T => recKey L r0 ∈ T.map dk) rs
        (fun T s _ _ hT => key_mem_UpdateOne_of_mem h T s hT) (i + 1) _ ?_
      simp only [Nat.add_zero] at hw
      simp only [step, hg, Bool.false_eq_true, if_false]
      cases hs : store i with
      | ok => exact key_mem_UpdateOne h _ _
      | errNotApplied => rw [hs] at hw; cases hw
      | errApplied => exact key_mem_UpdateOne h _ _
    | succ j =>
      simp only [List.getElem?_cons_succ] at hr
      exact ih (i + 1) _ j r hr hg (by rwa [show i + 1 + j = i + (j + 1) by omega])

theorem sat_setFields_self (h : Lawful L dk) (r : α) (d : Doc) :
    (L.filter r).sat (setFields d (L.doc r)) = true :=
  (h.sat_iff r _).2 (h.key_set r d)

theorem setFields_carries (d u : Doc) (f : String) (v : Value) (hu : u f = some v) :
    setFields d u f = some v := by
  simp [setFields, hu]

theorem carries_UpdateOne_self (h : Lawful L dk) (r : α) (S : List Doc) :
    Carries L r (UpdateOne S (L.filter r) (L.doc r)) := by
  induction S with
  | nil =>
    refine ⟨setFields (L.filter r).seed (L.doc r), ?_, fun f v => setFields_carries _ _ f v⟩
    simp [UpdateOne, List.find?, sat_setFields_self h]
  | cons e es ih =>
    by_cases hs : (L.filter r).sat e = true
    · rw [UpdateOne_cons_of_sat hs]
      refine ⟨setFields e (L.doc r), ?_, fun f v => setFields_carries _ _ f v⟩
      simp [List.find?, sat_setFields_self h]
    · have hs2 : (L.filter r).sat e = false := by simpa using hs
      rw [UpdateOne_cons_of_not hs2]
      obtain ⟨d, hd, hc⟩ := ih
      exact ⟨d, by simpa [List.find?, hs2] using hd, hc⟩

theorem sat_false_of_key_ne (h : Lawful L dk) {r s : α} {d : Doc}
    (hne : recKey L s ≠ recKey L r) (hd : dk d = recKey L s) :
    (L.filter r).sat d = false := by
  cases hs : (L.filter r).sat d with
  | false => rfl
  | true => exact absurd (hd.symm.trans ((h.sat_iff r d).1 hs)) hne

theorem find?_UpdateOne_other (h : Lawful L dk) {r s : α}
    (hne : recKey L s ≠ recKey L r) (T : List Doc) :
    (UpdateOne T (L.filter s) (L.doc s)).find? (L.filter r).sat =
      (T.find? (L.filter r).sat).orElse
        (fun _ => [setFields (L.filter s).seed (L.doc s)].find? (L.filter r).sat) := by
  induction T with
  | nil => simp [UpdateOne]
  | cons e es ih =>
    by_cases hs : (L.filter s).sat e = true
    · rw [UpdateOne_cons_of_sat hs]
      have h1 := sat_false_of_key_ne h hne ((h.sat_iff s e).1 hs)
      have h2 := sat_false_of_key_ne h hne (h.key_set s e)
      have h3 := sat_false_of_key_ne h hne (h.key_set s (L.filter s).seed)
      simp only [List.find?, h1, h2, h3]
      cases es.find? (L.filter r).sat <;> rfl
    · have hs2 : (L.filter s).sat e = false := by simpa using hs
      rw [UpdateOne_cons_of_not hs2]
      cases hr : (L.filter r).sat e with
      | true => simp [List.find?, hr]
      | false => simpa [List.find?, hr] using ih

theorem carries_UpdateOne_other (h : Lawful L dk) {r s : α}
    (hne : recKey L s ≠ recKey L r) (T : List Doc) (hT : Carries L r T) :
    Carries L r (UpdateOne T (L.filter s) (L.doc s)) := by
  obtain ⟨d, hd, hc⟩ := hT
  refine ⟨d, ?_, hc⟩
  rw [find?_UpdateOne_other h hne, hd]
  rfl

theorem carries_of_written (h : Lawful L dk) (store : Nat → StoreResult) :
    ∀ (rs : List α) (i : Nat) (acc : SyncResult) (j : Nat) (r : α), rs[j]? = some r →
      L.guard r = false → (store (i + j)).written = true →
      (∀ (j2 : Nat) (s : α), j < j2 → rs[j2]? = some s → L.guard s = false →
        recKey L s ≠ recKey L r) →
      Carries L r (upsertFrom L store i rs acc).coll := by
  intro rs
  induction rs with
  | nil => intro i acc j r hr; simp at hr
  | cons r0 rs ih =>
    intro i acc j r hr hg hw hlater
    rw [upsertFrom]
    cases j with
    | zero =>
      simp only [List.getElem?_cons_zero, Option.some.injEq] at hr
      subst hr
      refine upsertFrom_coll_induction store (Carries L r0) rs ?_ (i + 1) _ ?_
      · intro T s hs hgs hT
        obtain ⟨n, hn⟩ := List.getElem?_of_mem hs
        exact carries_UpdateOne_other h
          (hlater (n + 1) s (by omega) (by simpa using hn) hgs) T hT
      · simp only [Nat.add_zero] at hw
        simp only [step, hg, Bool.false_eq_true, if_false]
        cases hs : store i with
        | ok => exact carries_UpdateOne_self h _ _
        | errNotApplied => rw [hs] at hw; cases hw
        | errApplied => exact carries_UpdateOne_self h _ _
    | succ j =>
      simp only [List.getElem?_cons_succ] at hr
      refine ih (i + 1) _ j r hr hg (by rwa [show i + 1 + j = i + (j + 1) by omega]) ?_
      intro j2 s hj2 hs
      exact hlater (j2 + 1) s (by omega) (by simpa using hs)

theorem isolatesFailure_of_lawful (h : Lawful L dk) : IsolatesFailure L := by
  intro store S R k rk hk hgk hfail hok
  refine ⟨?_, ?_⟩
  · intro j r hkj hj hg
    have hw : (store (0 + j)).written = true := by
      rw [Nat.zero_add, hok j (by omega)]
      rfl
    refine ⟨(mem_issued_upsertLoop store S R j).2 ⟨r, hj, hg⟩, ?_, ?_⟩
    · have hm := key_mem_of_written h store R 0 (SyncResult.start S) j r hj hg hw
      obtain ⟨d, hd, hdk⟩ := List.mem_map.1 hm
      exact ⟨d, hd, (h.sat_iff r d).2 hdk⟩
    · intro hlater
      exact carries_of_written h store R 0 (SyncResult.start S) j r hj hg hw hlater
  · have h1 : (upsertFrom L store 0 R (SyncResult.start S)).skipped
        = 0 + R.countP L.guard := upsertFrom_skipped L store 0 R (SyncResult.start S)
    have h2 : (upsertFrom L store 0 R (SyncResult.start S)).inserted
        + (upsertFrom L store 0 R (SyncResult.start S)).skipped
        + (upsertFrom L store 0 R (SyncResult.start S)).failed = 0 + 0 + 0 + R.length :=
      upsertFrom_sum L store 0 R (SyncResult.start S)
    have h3 : (upsertFrom L store 0 R (SyncResult.start S)).failed = 0 + 1 :=
      upsertFrom_failed_one store k hfail hok R 0 (SyncResult.start S) (Nat.zero_le k) rk
        (by simpa using hk) hgk
    simp only [upsertLoop]
    constructor <;> omega

theorem upsertSemantics_of_lawful (h : Lawful L dk) : UpsertSemantics L := by
  intro S r
  constructor
  · intro d hd
    refine ⟨?_, ?_, ?_, fun f v => setFields_carries _ _ f v, ?_⟩
    · induction S with
      | nil => simp at hd
      | cons e es ih =>
        by_cases hs : (L.filter r).sat e = true
        · rw [UpdateOne_cons_of_sat hs]
          rfl
        · have hs2 : (L.filter r).sat e = false := by simpa using hs
          rw [UpdateOne_cons_of_not hs2, List.length_cons, List.length_cons,
            ih (by simpa [List.find?, hs2] using hd)]
    · induction S with
      | nil => simp at hd
      | cons e es ih =>
        by_cases hs : (L.filter r).sat e = true
        · rw [UpdateOne_cons_of_sat hs]
          simp [List.countP_cons, hs, sat_setFields_self h]
        · have hs2 : (L.filter r).sat e = false := by simpa using hs
          rw [UpdateOne_cons_of_not hs2, List.countP_cons, List.countP_cons,
            ih (by simpa [List.find?, hs2] using hd)]
    · induction S with
      | nil => simp at hd
      | cons e es ih =>
        by_cases hs : (L.filter r).sat e = true
        · rw [UpdateOne_cons_of_sat hs]
          simp only [List.find?, hs, Option.some.injEq] at hd
          subst hd
          simp [List.find?, sat_setFields_self h]
        · have hs2 : (L.filter r).sat e = false := by simpa using hs
          rw [UpdateOne_cons_of_not hs2]
          simp only [List.find?, hs2] at hd ⊢
          exact ih hd
    · intro f hf
      simp [setFields, hf]
  · intro hn
    induction S with
    | nil => simp [UpdateOne, h.seed_doc]
    | cons e es ih =>
      have hs2 : (L.filter r).sat e = false := by
        cases hs : (L.filter r).sat e with
        | false => rfl
        | true => simp [List.find?, hs] at hn
      rw [UpdateOne_cons_of_not hs2, ih (by simpa [List.find?, hs2] using hn)]
      rfl

end Invariants

/-! ## Order of application -/

section Order

variable {α : Type} {L : Loop α} {dk : Doc → List (Option Value)}

theorem setFields_empty_left (a : Doc) : setFields Doc.empty a = a := by
  funext k
  simp only [setFields, Doc.empty]
  cases a k <;> rfl

theorem run_append (S : List Doc) (R₁ R₂ : List α) :
    run L S (R₁ ++ R₂) = run L (run L S R₁) R₂ := by
  induction R₁ generalizing S with
  | nil => rfl
  | cons r rs ih => exact ih _

theorem key_eq_of_hit (h : Lawful L dk) {d : Doc} {r : α} (hh : hit L d r = true) :
    dk d = recKey L r :=
  (h.sat_iff r d).1 (sat_of_hit hh)

theorem nodup_valid_keys_perm {R R2 : List α} (hp : R.Perm R2)
    (hn : ((R.filter (fun r => !L.guard r)).map (recKey L)).Nodup) :
    ((R2.filter (fun r => !L.guard r)).map (recKey L)).Nodup :=
  (((hp.filter _).map _).nodup_iff).1 hn

theorem nodup_valid_keys_filter (q : α → Bool) {R : List α}
    (hn : ((R.filter (fun r => !L.guard r)).map (recKey L)).Nodup) :
    (((R.filter q).filter (fun r => !L.guard r)).map (recKey L)).Nodup := by
  refine List.Nodup.sublist ?_ hn
  exact ((List.filter_sublist R).filter _).map _

theorem assigned_perm (h : Lawful L dk) (d : Doc) {R R2 : List α} (hp : R.Perm R2) :
    ((R.filter (fun r => !L.guard r)).map (recKey L)).Nodup →
      assigned L d R = assigned L d R2 := by
  induction hp with
  | nil => intro _; rfl
  | cons x _ ih =>
    intro hn
    have hn2 := nodup_valid_keys_filter (L := L) (fun _ => true) hn
    simp only [assigned]
    rw [ih]
    by_cases hg : L.guard x = true
    · simpa [List.filter_cons, hg] using hn
    · have hg2 : L.guard x = false := by simpa using hg
      simp only [List.filter_cons, hg2, Bool.not_false, if_true, List.map_cons,
        List.nodup_cons] at hn
      exact hn.2
  | swap x y l =>
    intro hn
    simp only [assigned]
    by_cases hx : hit L d x = true
    · by_cases hy : hit L d y = true
      · exfalso
        have kx := key_eq_of_hit h hx
        have ky := key_eq_of_hit h hy
        have gx := guard_of_hit hx
        have gy := guard_of_hit hy
        simp only [List.filter_cons, gx, gy, Bool.not_false, if_true, List.map_cons,
          List.nodup_cons, List.mem_cons] at hn
        exact hn.1 (Or.inl (ky.symm.trans kx))
      · simp only [hx, hy, if_true, Bool.false_eq_true, if_false, setFields_empty_left]
    · simp only [hx, Bool.false_eq_true, if_false, setFields_empty_left]
  | trans hp1 _ ih1 ih2 =>
    intro hn
    rw [ih1 hn, ih2 (nodup_valid_keys_perm hp1 hn)]

theorem absorb_perm (h : Lawful L dk) (d : Doc) {R R2 : List α} (hp : R.Perm R2)
    (hn : ((R.filter (fun r => !L.guard r)).map (recKey L)).Nodup) :
    absorb L d R = absorb L d R2 := by
  rw [absorb_eq h, absorb_eq h, assigned_perm h d hp hn]

theorem absorb_of_no_hit (d : Doc) (R : List α) (hno : ∀ s ∈ R, hit L d s = false) :
    absorb L d R = d := by
  induction R with
  | nil => rfl
  | cons r rs ih =>
    simp only [absorb, hno r (List.mem_cons_self _ _), Bool.false_eq_true, if_false]
    exact ih (fun s hs => hno s (List.mem_cons_of_mem _ hs))

/-- With distinct keys, the loop on the empty collection inserts one entity per record that
passes the guard, in order. -/
theorem run_nil_of_nodup (h : Lawful L dk) (R : List α)
    (hn : ((R.filter (fun r => !L.guard r)).map (recKey L)).Nodup) :
    run L [] R = (R.filter (fun r => !L.guard r)).map
      (fun r => setFields (L.filter r).seed (L.doc r)) := by
  induction R with
  | nil => rfl
  | cons r rs ih =>
    by_cases hg : L.guard r = true
    · have hn2 : ((rs.filter (fun r => !L.guard r)).map (recKey L)).Nodup := by
        simpa [List.filter_cons, hg] using hn
      simp only [run, hg, if_true, List.filter_cons, Bool.not_true, Bool.false_eq_true,
        if_false]
      exact ih hn2
    · have hg2 : L.guard r = false := by simpa using hg
      simp only [List.filter_cons, hg2, Bool.not_false, if_true, List.map_cons,
        List.nodup_cons] at hn
      have hno : ∀ s ∈ rs, hit L (setFields (L.filter r).seed (L.doc r)) s = false := by
        intro s hs
        rw [hit_eq h, h.key_set]
        cases hgs : L.guard s with
        | true => rfl
        | false =>
          have hmem : recKey L s ∈ (rs.filter (fun r => !L.guard r)).map (recKey L) :=
            List.mem_map.2 ⟨s, List.mem_filter.2 ⟨hs, by simp [hgs]⟩, rfl⟩
          have hne : ¬ recKey L r = recKey L s := fun e => hn.1 (e ▸ hmem)
          simp [hne]
      simp only [run, hg2, Bool.false_eq_true, if_false, UpdateOne, List.filter_cons,
        Bool.not_false, if_true, List.map_cons]
      rw [run_cons h, absorb_of_no_hit _ _ hno, List.filter_eq_self.2
        (fun s hs => by simp [hno s hs]), ih hn.2]

theorem run_perm (h : Lawful L dk) (S : List Doc) :
    ∀ (R R2 : List α), R.Perm R2 →
      ((R.filter (fun r => !L.guard r)).map (recKey L)).Nodup →
      (run L S R).Perm (run L S R2) := by
  induction S with
  | nil =>
    intro R R2 hp hn
    rw [run_nil_of_nodup h R hn, run_nil_of_nodup h R2 (nodup_valid_keys_perm hp hn)]
    exact (hp.filter _).map _
  | cons d ds ih =>
    intro R R2 hp hn
    rw [run_cons h, run_cons h, absorb_perm h d hp hn]
    exact List.Perm.cons _ (ih _ _ (hp.filter _) (nodup_valid_keys_filter _ hn))

theorem orderIndependent_of_lawful (h : Lawful L dk) : OrderIndependent L := by
  refine ⟨fun S R₁ R₂ => ?_, fun S R R2 hp hn => ⟨?_, ?_⟩⟩
  · simp only [sync_eq_run, run_append]
  · simp only [sync_eq_run]
    exact run_perm h S R R2 hp hn
  · rw [(upsertLoop_allOk_counts L S R).1, (upsertLoop_allOk_counts L S R2).1]
    exact hp.countP_eq _

end Order

/-- C4: natural-key uniqueness is an invariant of each of the four loops.  When no two
stored entities agree on the natural key before the run ((nfl_id, season) for players,
game_id for games, (nfl_id, season, season_type) for seasonal statistics, (nfl_id, season,
week) for weekly statistics), none do after it, for every record sequence, repeated keys
included, and for every behaviour of the store, failing upserts included. -/
theorem natural_key_unique :
    PreservesUniqueKeys rosterLoop playerKey ∧ PreservesUniqueKeys gamesLoop gameKey ∧
    PreservesUniqueKeys statsLoop statsKey ∧ PreservesUniqueKeys weeklyLoop weeklyKey :=
  ⟨preservesUniqueKeys_of_lawful rosterLoop_lawful,
   preservesUniqueKeys_of_lawful gamesLoop_lawful,
   preservesUniqueKeys_of_lawful statsLoop_lawful,
   preservesUniqueKeys_of_lawful weeklyLoop_lawful⟩

/-- Instance of C4: the weekly file with a repeated key, the second call failing, run on
a collection that already holds week 3. -/
theorem natural_key_unique_witness :
    ([storedWeek3].map weeklyKey).Nodup ∧
    ((upsertLoop weeklyLoop (failAt 1 .errApplied) [storedWeek3]
        (weeklyScenario ++ weeklyScenarioChanged)).coll.map weeklyKey).Nodup :=
  ⟨by decide, natural_key_unique.2.2.2 _ _ _ (by decide)⟩

/-- C10: frame property of the three loops keyed by a player identifier.  A stored entity
whose natural key is the key of no record with a non-empty player identifier is identical
before and after the loop; a sequence that is empty or holds only records without player
identifier leaves the collection unchanged and reports 0, also in the script for 2025,
which returns early on an empty sequence. -/
theorem sync_frame :
    Frame rosterLoop playerKey ∧ Frame statsLoop statsKey ∧ Frame weeklyLoop weeklyKey ∧
    (∀ (store : Nat → StoreResult) (S : List Doc) (players : List Player),
      (∀ p ∈ players, p.NFLID = "") →
      ∃ res, load2025 (.read (.ok players)) store S = some res ∧
        res.coll = S ∧ res.inserted = 0) := by
  refine ⟨frame_of_lawful rosterLoop_lawful, frame_of_lawful statsLoop_lawful,
    frame_of_lawful weeklyLoop_lawful, ?_⟩
  intro store S players hp
  by_cases h0 : players.length = 0
  · exact ⟨SyncResult.start S, by simp [load2025, h0], rfl, rfl⟩
  · refine ⟨upsertLoop rosterLoop store S players, by simp [load2025, h0], ?_⟩
    exact (frame_of_lawful rosterLoop_lawful store S players).2
      (fun r hr => by simp [rosterLoop, hp r hr])

/-- Instance of C10: the stored week 3 is untouched by a file holding weeks 1 and 2. -/
theorem sync_frame_witness :
    [storedWeek3][0]? = some storedWeek3 ∧
    (∀ r ∈ [weeklyOf 1 40, weeklyOf 2 55], weeklyLoop.guard r = false →
      weeklyKey storedWeek3 ≠ recKey weeklyLoop r) ∧
    (upsertLoop weeklyLoop allOk [storedWeek3] [weeklyOf 1 40, weeklyOf 2 55]).coll[0]?
      = some storedWeek3 :=
  ⟨rfl, by decide,
   (sync_frame.2.2.1 allOk [storedWeek3] [weeklyOf 1 40, weeklyOf 2 55]).1 0 storedWeek3 rfl
     (by decide)⟩

/-! ## The key-validity filter -/

/-- C2, as the code has it: in the roster, seasonal and weekly loops a record with an empty
player identifier is skipped, for every store behaviour: no `UpdateOne` call is issued for
its position, its iteration only counts it as skipped, and the reported count is at most
the number of records with a player identifier.  The guard of these loops tests the
player identifier and nothing else. -/
theorem empty_player_id_skipped :
    (SkipsGuarded rosterLoop ∧ ∀ p : Player, rosterLoop.guard p = true ↔ p.NFLID = "") ∧
    (SkipsGuarded statsLoop ∧ ∀ s : PlayerStats, statsLoop.guard s = true ↔ s.NFLID = "") ∧
    (SkipsGuarded weeklyLoop ∧ ∀ s : WeeklyStats, weeklyLoop.guard s = true ↔ s.NFLID = "") :=
  ⟨⟨skipsGuarded rosterLoop, fun p => by simp [rosterLoop]⟩,
   ⟨skipsGuarded statsLoop, fun p => by simp [statsLoop]⟩,
   ⟨skipsGuarded weeklyLoop, fun p => by simp [weeklyLoop]⟩⟩

/-- Instance of C2: the row without identifier of the roster scenario, at position 1. -/
theorem empty_player_id_skipped_witness :
    rosterLoop.guard { NFLID := "", Season := 2024, Name := "Nobody", rest := Doc.empty } = true ∧
    1 ∉ (upsertLoop rosterLoop allOk [] rosterScenario).issued :=
  ⟨rfl, (empty_player_id_skipped.1.1 allOk [] rosterScenario 1 _ rfl rfl).1⟩

/-- C2 fails as stated: a game with an empty game identifier is upserted and counted, and
so is a seasonal statistic with an empty season type. -/
theorem key_filter_counterexample :
    (upsertLoop gamesLoop allOk [] [{ GameID := "", rest := Doc.empty }]).issued = [0] ∧
    (upsertLoop gamesLoop allOk [] [{ GameID := "", rest := Doc.empty }]).inserted = 1 ∧
    (upsertLoop gamesLoop allOk [] [{ GameID := "", rest := Doc.empty }]).coll.length = 1 ∧
    (upsertLoop statsLoop allOk []
      [{ NFLID := "P1", Season := 2023, SeasonType := "", rest := Doc.empty }]).issued = [0] ∧
    (upsertLoop statsLoop allOk []
      [{ NFLID := "P1", Season := 2023, SeasonType := "", rest := Doc.empty }]).inserted = 1 ∧
    (upsertLoop statsLoop allOk []
      [{ NFLID := "P1", Season := 2023, SeasonType := "", rest := Doc.empty }]).coll.map
        statsKey = [[some (.str "P1"), some (.int 2023), some (.str "")]] := by
  decide

/-! ## Isolation of a failing upsert -/

/-- C3: in each of the four loops, when the upsert of the record at position k (a record
the loop does not skip) fails and every other upsert succeeds, the loop still issues the
upsert for every later record it does not skip, an entity with the natural key of each of
them is in the final collection (carrying the fields of the record when no later record
has its key), and the reported count is M - 1 - skipped_count, where M is the length of
the sequence and skipped_count the number of records with an empty player identifier. -/
theorem failure_isolated :
    IsolatesFailure rosterLoop ∧ IsolatesFailure gamesLoop ∧
    IsolatesFailure statsLoop ∧ IsolatesFailure weeklyLoop :=
  ⟨isolatesFailure_of_lawful rosterLoop_lawful, isolatesFailure_of_lawful gamesLoop_lawful,
   isolatesFailure_of_lawful statsLoop_lawful, isolatesFailure_of_lawful weeklyLoop_lawful⟩

/-- Instance of C3: the roster scenario with the first upsert failing. -/
theorem failure_isolated_witness :
    (failAt 0 .errNotApplied 0).succeeded = false ∧
    (upsertLoop rosterLoop (failAt 0 .errNotApplied) [] rosterScenario).inserted = 4 - 1 - 1 ∧
    2 ∈ (upsertLoop rosterLoop (failAt 0 .errNotApplied) [] rosterScenario).issued ∧
    3 ∈ (upsertLoop rosterLoop (failAt 0 .errNotApplied) [] rosterScenario).issued :=
  have h := failure_isolated.1 (failAt 0 .errNotApplied) [] rosterScenario 0 _ rfl rfl rfl
    (fun j hj => by simp [failAt, hj])
  ⟨rfl, h.2.1, (h.1 2 _ (by decide) rfl rfl).1, (h.1 3 _ (by decide) rfl rfl).1⟩

/-! ## What an upsert does to the matched entity -/

/-- C5, as the code has it: a successful upsert of r with `$set` updates the first entity
with the natural key of r in place.  The number of entities, and of entities with that
key, is unchanged; every field r carries takes the value of r; every field r does not
carry keeps its stored value.  When no entity has the key, one new entity equal to r is
added.  Synchronising the weekly file of P1 for 2023 and then the file with the values of
week 3 changed leaves one entity for (P1, 2023, 3), with the changed values. -/
theorem upsert_sets_fields :
    UpsertSemantics rosterLoop ∧ UpsertSemantics gamesLoop ∧
    UpsertSemantics statsLoop ∧ UpsertSemantics weeklyLoop ∧
    ((sync weeklyLoop (sync weeklyLoop [] weeklyScenario) weeklyScenarioChanged).filter
        (weeklyLoop.filter (weeklyOf 3 80)).sat).map (fun d => d "yards")
      = [some (.int 80)] ∧
    (sync weeklyLoop (sync weeklyLoop [] weeklyScenario) weeklyScenarioChanged).length = 3 :=
  ⟨upsertSemantics_of_lawful rosterLoop_lawful, upsertSemantics_of_lawful gamesLoop_lawful,
   upsertSemantics_of_lawful statsLoop_lawful, upsertSemantics_of_lawful weeklyLoop_lawful,
   by decide, by decide⟩

/-- Instance of C5: the stored week 3 is the entity the filter of the changed week 3
selects; after the upsert it has the new yards and still its own `note`. -/
theorem upsert_sets_fields_witness :
    [storedWeek3].find? (weeklyLoop.filter (weeklyOf 3 80)).sat = some storedWeek3 ∧
    (UpdateOne [storedWeek3] (weeklyLoop.filter (weeklyOf 3 80)) (weeklyOf 3 80).doc).length
      = 1 ∧
    setFields storedWeek3 (weeklyOf 3 80).doc "note" = storedWeek3 "note" :=
  have h := (upsert_sets_fields.2.2.2.1 [storedWeek3] (weeklyOf 3 80)).1 storedWeek3 rfl
  ⟨rfl, h.1, h.2.2.2.2 "note" rfl⟩

/-- C5 fails as stated: the stored entity for (P1, 2023, 3) has the fields `_id` and
`note`, which the record does not carry; after the successful upsert of the record the
entity has the new yards, and `_id` and `note` of the stored entity are still there, so
its field set is not the field set of the record. -/
theorem full_replace_counterexample :
    (weeklyLoop.filter (weeklyOf 3 80)).sat storedWeek3 = true ∧
    (weeklyOf 3 80).doc "_id" = none ∧ (weeklyOf 3 80).doc "note" = none ∧
    (upsertLoop weeklyLoop allOk [storedWeek3] [weeklyOf 3 80]).inserted = 1 ∧
    (upsertLoop weeklyLoop allOk [storedWeek3] [weeklyOf 3 80]).coll.map
        (fun d => (d "yards", d "_id", d "note"))
      = [(some (.int 80), some (.int 7), some (.str "questionable"))] ∧
    (upsertLoop weeklyLoop allOk [storedWeek3] [weeklyOf 3 80]).coll
      ≠ [(weeklyOf 3 80).doc] := by
  refine ⟨by decide, by decide, by decide, by decide, by decide, ?_⟩
  intro h
  have h2 := congrArg (fun T => T.map (fun d => d "_id")) h
  revert h2
  decide

/-! ## Order independence -/

/-- C7: in each of the four loops the records are applied in sequence order, and when the
records the loop does not skip have pairwise distinct natural keys, every permutation of
the sequence, synchronised into the same initial collection with every upsert succeeding,
gives the same stored entities and the same applied count. -/
theorem order_independent :
    OrderIndependent rosterLoop ∧ OrderIndependent gamesLoop ∧
    OrderIndependent statsLoop ∧ OrderIndependent weeklyLoop :=
  ⟨orderIndependent_of_lawful rosterLoop_lawful, orderIndependent_of_lawful gamesLoop_lawful,
   orderIndependent_of_lawful statsLoop_lawful, orderIndependent_of_lawful weeklyLoop_lawful⟩

/-- Instance of C7: the weekly file and the same file read backwards, run on a collection
that already holds week 3. -/
theorem order_independent_witness :
    weeklyScenarioChanged.Perm weeklyScenarioChanged.reverse ∧
    ((weeklyScenarioChanged.filter (fun r => !weeklyLoop.guard r)).map
      (recKey weeklyLoop)).Nodup ∧
    (sync weeklyLoop [storedWeek3] weeklyScenarioChanged).Perm
      (sync weeklyLoop [storedWeek3] weeklyScenarioChanged.reverse) :=
  ⟨(List.reverse_perm _).symm, by decide,
   (order_independent.2.2.2.2 [storedWeek3] weeklyScenarioChanged
      weeklyScenarioChanged.reverse (List.reverse_perm _).symm (by decide)).1⟩

/-! ## Failing files -/

section Files

variable {α : Type} (L : Loop α)

theorem yearStep_of_not_usable (files : Int → FileOutcome α)
    (store : Int → Nat → StoreResult) (y : Int) (st : LoadState)
    (hu : (files y).usable = false) : yearStep L files store y st = st := by
  unfold yearStep
  cases hf : files y with
  | missing => rfl
  | readError => rfl
  | read parsed =>
    cases parsed with
    | error e => rfl
    | ok rs => rw [hf] at hu; cases hu

theorem yearsIsolated : YearsIsolated L := by
  intro files store ys st
  refine ⟨fun y hu => yearStep_of_not_usable L files store y st hu, ?_⟩
  induction ys generalizing st with
  | nil => rfl
  | cons y ys ih =>
    cases hu : (files y).usable with
    | true =>
      simp only [List.filter_cons, hu, if_true, loadYears]
      exact ih _
    | false =>
      simp only [List.filter_cons, hu, Bool.false_eq_true, if_false, loadYears]
      rw [yearStep_of_not_usable L files store y st hu]
      exact ih _

theorem yearStep_of_error (files : Int → FileOutcome α) (store : Int → Nat → StoreResult)
    (y : Int) (st : LoadState) (e : DecodeError) (hf : files y = .read (.error e)) :
    yearStep L files store y st = st := by
  simp [yearStep, hf]

theorem decode_missing (required columns : List String)
    (rowGroups : List (List (String × List Value))) (c : String) (hc : c ∈ required)
    (hm : c ∉ columns) :
    ∃ c2, c2 ∈ required ∧ c2 ∉ columns ∧
      decode required (.table columns rowGroups) = .error (.schemaMismatch c2) := by
  cases hfind : required.find? (fun c => !columns.contains c) with
  | none =>
    have := List.find?_eq_none.1 hfind c hc
    simp [hm] at this
  | some c2 =>
    refine ⟨c2, List.mem_of_find?_eq_some hfind, ?_, ?_⟩
    · have := List.find?_some hfind
      simpa using this
    · simp only [decode, hfind]

end Files

/-- C8: in the three multi-year loops (roster files, seasonal statistics, weekly
statistics), for every list of years and every outcome per year, a year whose file is
missing or cannot be read or decoded issues no upsert and adds 0 to the running total, and
the final collection and total are those of the loop over the usable years alone. -/
theorem years_isolated :
    YearsIsolated rosterLoop ∧ YearsIsolated statsLoop ∧ YearsIsolated weeklyLoop :=
  ⟨yearsIsolated rosterLoop, yearsIsolated statsLoop, yearsIsolated weeklyLoop⟩

/-- Instance of C8: the years 2020 to 2024 on the cache scenario; 2020, 2021 and 2022 drop
out. -/
theorem years_isolated_witness :
    (cacheScenario 2021).usable = false ∧
    years.filter (fun y => (cacheScenario y).usable) = [2023, 2024] ∧
    loadYears rosterLoop cacheScenario (fun _ => allOk) years ⟨[], 0, []⟩
      = loadYears rosterLoop cacheScenario (fun _ => allOk) [2023, 2024] ⟨[], 0, []⟩ :=
  ⟨by decide, by decide,
   (years_isolated.1 cacheScenario (fun _ => allOk) years ⟨[], 0, []⟩).2⟩

/-- C9: each decoder entry point, given a file whose column directory lacks a column
required by the schema of the entity kind, fails with a schema-mismatch error that names a
required column absent from the file, and returns no record; the loop that called it
leaves the collection, the total and the issued calls unchanged. -/
theorem schema_mismatch_detected :
    (∀ (schema : Schema Player) (columns : List String)
        (rowGroups : List (List (String × List Value))) (year : Int) (c : String),
      c ∈ schema.required → c ∉ columns →
      ∃ c2, c2 ∈ schema.required ∧ c2 ∉ columns ∧
        ParseRoster schema (.table columns rowGroups) year = .error (.schemaMismatch c2) ∧
        ∀ (files : Int → FileOutcome Player) (store : Int → Nat → StoreResult)
          (st : LoadState),
          files year = .read (ParseRoster schema (.table columns rowGroups) year) →
          yearStep rosterLoop files store year st = st) ∧
    (∀ (schema : Schema Game) (columns : List String)
        (rowGroups : List (List (String × List Value))) (c : String),
      c ∈ schema.required → c ∉ columns →
      ∃ c2, c2 ∈ schema.required ∧ c2 ∉ columns ∧
        ParseSchedules schema (.table columns rowGroups) = .error (.schemaMismatch c2) ∧
        ∀ (store : Nat → StoreResult) (st : LoadState),
          loadGames (.read (ParseSchedules schema (.table columns rowGroups))) store st
            = st) ∧
    (∀ (schema : Schema PlayerStats) (columns : List String)
        (rowGroups : List (List (String × List Value))) (year : Int) (seasonType : String)
        (c : String),
      c ∈ schema.required → c ∉ columns →
      ∃ c2, c2 ∈ schema.required ∧ c2 ∉ columns ∧
        ParsePlayerStats schema (.table columns rowGroups) year seasonType
          = .error (.schemaMismatch c2) ∧
        ∀ (files : Int → FileOutcome PlayerStats) (store : Int → Nat → StoreResult)
          (st : LoadState),
          files year
            = .read (ParsePlayerStats schema (.table columns rowGroups) year seasonType) →
          yearStep statsLoop files store year st = st) ∧
    (∀ (schema : Schema WeeklyStats) (columns : List String)
        (rowGroups : List (List (String × List Value))) (year : Int) (c : String),
      c ∈ schema.required → c ∉ columns →
      ∃ c2, c2 ∈ schema.required ∧ c2 ∉ columns ∧
        ParseWeeklyStats schema (.table columns rowGroups) year
          = .error (.schemaMismatch c2) ∧
        ∀ (files : Int → FileOutcome WeeklyStats) (store : Int → Nat → StoreResult)
          (st : LoadState),
          files year = .read (ParseWeeklyStats schema (.table columns rowGroups) year) →
          yearStep weeklyLoop files store year st = st) := by
  refine ⟨?_, ?_, ?_, ?_⟩
  · intro schema columns rowGroups year c hc hm
    obtain ⟨c2, h1, h2, h3⟩ := decode_missing schema.required columns rowGroups c hc hm
    have e : ParseRoster schema (.table columns rowGroups) year
        = .error (.schemaMismatch c2) := by
      simp [ParseRoster, h3, Except.map]
    refine ⟨c2, h1, h2, e, fun files store st hf => ?_⟩
    exact yearStep_of_error rosterLoop files store year st _ (hf.trans (by rw [e]))
  · intro schema columns rowGroups c hc hm
    obtain ⟨c2, h1, h2, h3⟩ := decode_missing schema.required columns rowGroups c hc hm
    have e : ParseSchedules schema (.table columns rowGroups)
        = .error (.schemaMismatch c2) := by
      simp [ParseSchedules, h3, Except.map]
    refine ⟨c2, h1, h2, e, fun store st => ?_⟩
    rw [e]
    rfl
  · intro schema columns rowGroups year seasonType c hc hm
    obtain ⟨c2, h1, h2, h3⟩ := decode_missing schema.required columns rowGroups c hc hm
    have e : ParsePlayerStats schema (.table columns rowGroups) year seasonType
        = .error (.schemaMismatch c2) := by
      simp [ParsePlayerStats, h3, Except.map]
    refine ⟨c2, h1, h2, e, fun files store st hf => ?_⟩
    exact yearStep_of_error statsLoop files store year st _ (hf.trans (by rw [e]))
  · intro schema columns rowGroups year c hc hm
    obtain ⟨c2, h1, h2, h3⟩ := decode_missing schema.required columns rowGroups c hc hm
    have e : ParseWeeklyStats schema (.table columns rowGroups) year
        = .error (.schemaMismatch c2) := by
      simp [ParseWeeklyStats, h3, Except.map]
    refine ⟨c2, h1, h2, e, fun files store st hf => ?_⟩
    exact yearStep_of_error weeklyLoop files store year st _ (hf.trans (by rw [e]))

/-- Instance of C9: a roster file with the column `gsis_id` but without the required
column `full_name`. -/
theorem schema_mismatch_detected_witness :
    "full_name" ∈ schemaScenario.required ∧ "full_name" ∉ ["gsis_id"] ∧
    ∃ c2, c2 ∈ schemaScenario.required ∧ c2 ∉ ["gsis_id"] ∧
      ParseRoster schemaScenario (.table ["gsis_id"] [[("gsis_id", [.str "P1"])]]) 2024
        = .error (.schemaMismatch c2) :=
  ⟨by decide, by decide,
   match schema_mismatch_detected.1 schemaScenario ["gsis_id"] [[("gsis_id", [.str "P1"])]]
       2024 "full_name" (by decide) (by decide) with
   | ⟨c2, h1, h2, h3, _⟩ => ⟨c2, h1, h2, h3⟩⟩

/-! ## Idempotence -/

/-- C1: synchronising a record sequence a second time, every upsert succeeding, leaves
the collection exactly as the first run left it, for each of the four loops and every
initial collection; the number of stored entities is therefore the same after both runs. -/
theorem sync_idempotent :
    (∀ (S : List Doc) (R : List Player),
      sync rosterLoop (sync rosterLoop S R) R = sync rosterLoop S R ∧
      (sync rosterLoop (sync rosterLoop S R) R).length = (sync rosterLoop S R).length) ∧
    (∀ (S : List Doc) (R : List Game),
      sync gamesLoop (sync gamesLoop S R) R = sync gamesLoop S R ∧
      (sync gamesLoop (sync gamesLoop S R) R).length = (sync gamesLoop S R).length) ∧
    (∀ (S : List Doc) (R : List PlayerStats),
      sync statsLoop (sync statsLoop S R) R = sync statsLoop S R ∧
      (sync statsLoop (sync statsLoop S R) R).length = (sync statsLoop S R).length) ∧
    (∀ (S : List Doc) (R : List WeeklyStats),
      sync weeklyLoop (sync weeklyLoop S R) R = sync weeklyLoop S R ∧
      (sync weeklyLoop (sync weeklyLoop S R) R).length = (sync weeklyLoop S R).length) := by
  refine ⟨fun S R => ?_, fun S R => ?_, fun S R => ?_, fun S R => ?_⟩
  · have e := run_idem rosterLoop_lawful S R
    simp only [sync_eq_run]
    exact ⟨e, by rw [e]⟩
  · have e := run_idem gamesLoop_lawful S R
    simp only [sync_eq_run]
    exact ⟨e, by rw [e]⟩
  · have e := run_idem statsLoop_lawful S R
    simp only [sync_eq_run]
    exact ⟨e, by rw [e]⟩
  · have e := run_idem weeklyLoop_lawful S R
    simp only [sync_eq_run]
    exact ⟨e, by rw [e]⟩

/-! ## Outcome counts -/

/-- C6: on a roster sequence of length M with every upsert succeeding, the reported count
is the number of records with a player identifier, the skipped records are those without,
nothing fails, and the three counts add up to M; a second run on the resulting collection
reports the same count.  On the scenario of three valid rows and one row without
identifier, run on the empty collection: applied 3, skipped 1, failed 0, applied 3 again
on the second run, and three stored entities after either run. -/
theorem roster_outcome_counts :
    (∀ (S : List Doc) (R : List Player),
      (upsertLoop rosterLoop allOk S R).inserted = R.countP (fun p => decide (p.NFLID ≠ "")) ∧
      (upsertLoop rosterLoop allOk S R).skipped = R.countP (fun p => decide (p.NFLID = "")) ∧
      (upsertLoop rosterLoop allOk S R).failed = 0 ∧
      (upsertLoop rosterLoop allOk S R).inserted + (upsertLoop rosterLoop allOk S R).skipped
        + (upsertLoop rosterLoop allOk S R).failed = R.length ∧
      (upsertLoop rosterLoop allOk (upsertLoop rosterLoop allOk S R).coll R).inserted
        = (upsertLoop rosterLoop allOk S R).inserted) ∧
    ((upsertLoop rosterLoop allOk [] rosterScenario).inserted = 3 ∧
      (upsertLoop rosterLoop allOk [] rosterScenario).skipped = 1 ∧
      (upsertLoop rosterLoop allOk [] rosterScenario).failed = 0 ∧
      (upsertLoop rosterLoop allOk [] rosterScenario).coll.length = 3 ∧
      (upsertLoop rosterLoop allOk
        (upsertLoop rosterLoop allOk [] rosterScenario).coll rosterScenario).inserted = 3 ∧
      (upsertLoop rosterLoop allOk
        (upsertLoop rosterLoop allOk [] rosterScenario).coll rosterScenario).coll.length = 3) := by
  constructor
  · intro S R
    obtain ⟨h1, h2, h3⟩ := upsertLoop_allOk_counts rosterLoop S R
    obtain ⟨k1, _, _⟩ :=
      upsertLoop_allOk_counts rosterLoop (upsertLoop rosterLoop allOk S R).coll R
    have h4 := countP_guard_add rosterLoop R
    have e1 : R.countP (fun p => decide (p.NFLID ≠ ""))
        = R.countP (fun r => !rosterLoop.guard r) := by
      congr 1
      funext p
      simp [rosterLoop]
    have e2 : R.countP (fun p => decide (p.NFLID = "")) = R.countP rosterLoop.guard := rfl
    rw [e1, e2, k1]
    refine ⟨h1, h2, h3, ?_, h1.symm⟩
    omega
  · decide



end NFL
